import Mathlib

/-
Verification of the feature-computation engine of the Trading-Bot-Algo
repository (src/pipeline/feature_pipeline.py, src/pipeline/data_pipeline.py,
src/model/data_collection.py).

The engine operates on a pandas DataFrame of OHLCV bars.  We embed it
shallowly:

* A pandas cell value is an `FVal`: either NaN, +inf, -inf, or a finite
  number.  Finite doubles are modelled as exact rationals; the claims under
  verification concern definedness boundaries, causality, ordering and
  implementation agreement, none of which depend on rounding.
* `np.log` and the square root used inside the rolling sample standard
  deviation are real-valued transcendental operations that have no exact
  computable counterpart on rationals.  They are modelled by parameters
  `L S : Q -> Q` standing for the restriction of the real log / sqrt to
  positive rationals.  Their edge behaviour on zero, negatives, NaN and
  infinities is modelled exactly; no theorem below depends on the values of
  `L` or `S` at positive arguments.
* A DataFrame is a record of columns (`DF`).  A statement `df["c"] = e`
  in the source mutates the frame that the caller passed in, so the
  functions below are read as state transformers: the value they return is
  the state of the caller object after the call.  Feature columns are
  `Option (List FVal)` so that a column that was never assigned (`none`)
  is distinguishable from an assigned one (`some`).
* `Series.rolling(window)` has `min_periods = window`: an output cell is
  NaN unless the trailing window holds `window` non-NaN observations.
  `.std()` uses `ddof = 1` (sample standard deviation), which is NaN
  whenever fewer than two observations are available.
* `pct_change()` is `close / close.shift(1) - 1`; its default forward-fill
  of NaN inputs only matters when a close itself is NaN, which the BarSeries
  data model (positive finite closes) excludes, so it is not modelled.
-/

namespace TradingBot

/-- FVal models one pandas / numpy float64 cell: NaN, one of the two
infinities, or a finite value (modelled as an exact rational). -/
inductive FVal where
  | nan : FVal
  | pinf : FVal
  | ninf : FVal
  | fin : ℚ → FVal
deriving DecidableEq, Repr

/-- Boolean test for the NaN cell (the pandas missing-value sentinel). -/
def isNan : FVal → Bool
  | .nan => true
  | _ => false

/-- Boolean test for a finite cell; this is the embedding of the notion
"defined" of the specification (neither NaN nor an infinity). -/
def isFin : FVal → Bool
  | .fin _ => true
  | _ => false

/-- Boolean test for a finite, strictly positive cell. -/
def isPosFin : FVal → Bool
  | .fin q => decide (0 < q)
  | _ => false

/-- IEEE-754 negation on the embedded cells. -/
def fneg : FVal → FVal
  | .nan => .nan
  | .pinf => .ninf
  | .ninf => .pinf
  | .fin q => .fin (-q)

/-- IEEE-754 addition on the embedded cells. -/
def fadd : FVal → FVal → FVal
  | .nan, _ => .nan
  | _, .nan => .nan
  | .pinf, .ninf => .nan
  | .ninf, .pinf => .nan
  | .pinf, _ => .pinf
  | _, .pinf => .pinf
  | .ninf, _ => .ninf
  | _, .ninf => .ninf
  | .fin a, .fin b => .fin (a + b)

/-- IEEE-754 subtraction, as addition of the negation. -/
def fsub (a b : FVal) : FVal := fadd a (fneg b)

/-- IEEE-754 multiplication on the embedded cells. -/
def fmul : FVal → FVal → FVal
  | .nan, _ => .nan
  | _, .nan => .nan
  | .pinf, .pinf => .pinf
  | .pinf, .ninf => .ninf
  | .ninf, .pinf => .ninf
  | .ninf, .ninf => .pinf
  | .pinf, .fin b => if 0 < b then .pinf else if b < 0 then .ninf else .nan
  | .fin a, .pinf => if 0 < a then .pinf else if a < 0 then .ninf else .nan
  | .ninf, .fin b => if 0 < b then .ninf else if b < 0 then .pinf else .nan
  | .fin a, .ninf => if 0 < a then .ninf else if a < 0 then .pinf else .nan
  | .fin a, .fin b => .fin (a * b)

/-- IEEE-754 division on the embedded cells.  In particular `0 / 0` is NaN
and `x / 0` for finite nonzero `x` is a signed infinity, exactly as numpy
evaluates the elementwise quotient of two Series. -/
def fdiv : FVal → FVal → FVal
  | .nan, _ => .nan
  | _, .nan => .nan
  | .pinf, .pinf => .nan
  | .pinf, .ninf => .nan
  | .ninf, .pinf => .nan
  | .ninf, .ninf => .nan
  | .pinf, .fin b => if 0 ≤ b then .pinf else .ninf
  | .ninf, .fin b => if 0 ≤ b then .ninf else .pinf
  | .fin _, .pinf => .fin 0
  | .fin _, .ninf => .fin 0
  | .fin a, .fin b =>
      if b = 0 then (if a = 0 then .nan else if 0 < a then .pinf else .ninf)
      else .fin (a / b)

/-- Embedding of `np.log` on one cell, with `L` standing for the real
logarithm on positive rationals: `log` of a negative number or of NaN is
NaN, `log 0 = -inf`, `log (+inf) = +inf`. -/
def flog (L : ℚ → ℚ) : FVal → FVal
  | .nan => .nan
  | .pinf => .pinf
  | .ninf => .nan
  | .fin q => if 0 < q then .fin (L q) else if q = 0 then .ninf else .nan

/-- Embedding of the square root applied by the rolling sample standard
deviation, with `S` standing for the real square root on positive
rationals: the square root of zero is exactly zero, of a negative number
NaN. -/
def fsqrt (S : ℚ → ℚ) : FVal → FVal
  | .nan => .nan
  | .pinf => .pinf
  | .ninf => .nan
  | .fin q => if q = 0 then .fin 0 else if 0 < q then .fin (S q) else .nan

/-- Embedding of `Series.shift(1)`: every value moves one slot later, the
first slot becomes NaN, the former last value falls off; the length is
unchanged. -/
def shiftCol (xs : List FVal) : List FVal := (FVal.nan :: xs).take xs.length

/-- Elementwise quotient of two aligned Series. -/
def divCol (xs ys : List FVal) : List FVal := List.zipWith fdiv xs ys

/-- Elementwise difference of two aligned Series. -/
def subCol (xs ys : List FVal) : List FVal := List.zipWith fsub xs ys

/-- Elementwise `np.log` of a Series. -/
def logCol (L : ℚ → ℚ) (xs : List FVal) : List FVal := xs.map (flog L)

/-- Embedding of `Series.pct_change()`: `close / close.shift(1) - 1`. -/
def pctChangeCol (xs : List FVal) : List FVal :=
  (divCol xs (shiftCol xs)).map (fun v => fsub v (.fin 1))

/-- Embedding of `Series.diff()`: elementwise difference with the
one-step-shifted Series. -/
def diffCol (xs : List FVal) : List FVal := subCol xs (shiftCol xs)

/-- Trailing window of the rolling computation at index `t`: the slice of
indices `max 0 (t+1-w) .. t`, i.e. at most `w` observations ending at `t`
inclusive.  No index beyond `t` is touched. -/
def winAt (w : ℕ) (xs : List FVal) (t : ℕ) : List FVal :=
  (xs.take (t+1)).drop (t + 1 - w)

/-- Number of non-NaN observations in a window; pandas compares this count
against `min_periods`. -/
def obsCount (xs : List FVal) : ℕ := (xs.filter (fun v => !(isNan v))).length

/-- Sum of the non-NaN observations of a window, the way the pandas rolling
aggregation accumulates them. -/
def nanSum (xs : List FVal) : FVal :=
  xs.foldl (fun a v => if isNan v then a else fadd a v) (.fin 0)

/-- Rolling mean cell at index `t` for `rolling(w).mean()`: NaN while fewer
than `w` observations exist or while any value in the trailing window is
NaN (`min_periods = w`), otherwise the mean of the window. -/
def meanAt (w : ℕ) (xs : List FVal) (t : ℕ) : FVal :=
  let win := winAt w xs t
  if t + 1 < w then .nan
  else if obsCount win < w then .nan
  else fdiv (nanSum win) (.fin (obsCount win))

/-- Embedding of `Series.rolling(w).mean()`. -/
def rollingMean (w : ℕ) (xs : List FVal) : List FVal :=
  (List.range xs.length).map (meanAt w xs)

/-- Rolling sample standard deviation cell at index `t` for
`rolling(w).std()` (`ddof = 1`): NaN while fewer than `w` observations
exist, while any value in the trailing window is NaN, or while fewer than
two observations are available (the sample variance divides by
`count - 1`); otherwise the square root of the sample variance of the
window. -/
def stdAt (S : ℚ → ℚ) (w : ℕ) (xs : List FVal) (t : ℕ) : FVal :=
  let win := winAt w xs t
  if t + 1 < w then .nan
  else if obsCount win < w then .nan
  else if obsCount win ≤ 1 then .nan
  else
    let m := fdiv (nanSum win) (.fin (obsCount win))
    let ss := win.foldl
      (fun a v => if isNan v then a else fadd a (fmul (fsub v m) (fsub v m)))
      (.fin 0)
    fsqrt S (fdiv ss (.fin ((obsCount win : ℚ) - 1)))

/-- Embedding of `Series.rolling(w).std()`. -/
def rollingStd (S : ℚ → ℚ) (w : ℕ) (xs : List FVal) : List FVal :=
  (List.range xs.length).map (stdAt S w xs)

/-- DF is the state of one pandas DataFrame flowing through the pipeline:
the timestamp axis, the five OHLCV base columns, and the eleven feature
columns, each `none` until the engine assigns it.  The field `open_`
renders the source column name `open`, which is reserved in Lean. -/
structure DF where
  datetime : List ℤ
  open_ : List FVal
  high : List FVal
  low : List FVal
  close : List FVal
  volume : List FVal
  log_return : Option (List FVal) := none
  simple_return : Option (List FVal) := none
  rolling_mean : Option (List FVal) := none
  rolling_std : Option (List FVal) := none
  rolling_zscore : Option (List FVal) := none
  rolling_volatility : Option (List FVal) := none
  price_range : Option (List FVal) := none
  rolling_range : Option (List FVal) := none
  volume_mean : Option (List FVal) := none
  volume_zscore : Option (List FVal) := none
  trend_strength : Option (List FVal) := none
deriving DecidableEq, Repr

/-- Number of rows of the frame, read off the close column. -/
def DF.n (df : DF) : ℕ := df.close.length

/-- Well-formedness of the base table: the timestamp axis and all five
OHLCV columns have the same number of rows. -/
def BaseWf (df : DF) : Prop :=
  df.datetime.length = df.n ∧ df.open_.length = df.n ∧ df.high.length = df.n ∧
    df.low.length = df.n ∧ df.volume.length = df.n

instance (df : DF) : Decidable (BaseWf df) := by
  unfold BaseWf; infer_instance

/-- Truncation of a frame to its first `m` rows (the BarSeries containing
only the bars at indices below `m`). -/
def truncDF (df : DF) (m : ℕ) : DF where
  datetime := df.datetime.take m
  open_ := df.open_.take m
  high := df.high.take m
  low := df.low.take m
  close := df.close.take m
  volume := df.volume.take m
  log_return := df.log_return.map (List.take m)
  simple_return := df.simple_return.map (List.take m)
  rolling_mean := df.rolling_mean.map (List.take m)
  rolling_std := df.rolling_std.map (List.take m)
  rolling_zscore := df.rolling_zscore.map (List.take m)
  rolling_volatility := df.rolling_volatility.map (List.take m)
  price_range := df.price_range.map (List.take m)
  rolling_range := df.rolling_range.map (List.take m)
  volume_mean := df.volume_mean.map (List.take m)
  volume_zscore := df.volume_zscore.map (List.take m)
  trend_strength := df.trend_strength.map (List.take m)

/-- Row is the slice of one frame at one index: the FeatureRow of the
specification, timestamp and OHLCV passthrough included.  A field is
`none` when the column is absent or shorter than the index. -/
structure Row where
  datetime : Option ℤ
  open_ : Option FVal
  high : Option FVal
  low : Option FVal
  close : Option FVal
  volume : Option FVal
  log_return : Option FVal
  simple_return : Option FVal
  rolling_mean : Option FVal
  rolling_std : Option FVal
  rolling_zscore : Option FVal
  rolling_volatility : Option FVal
  price_range : Option FVal
  rolling_range : Option FVal
  volume_mean : Option FVal
  volume_zscore : Option FVal
  trend_strength : Option FVal
deriving DecidableEq, Repr

/-- Slice of the frame `df` at row index `t`. -/
def rowAt (df : DF) (t : ℕ) : Row where
  datetime := df.datetime[t]?
  open_ := df.open_[t]?
  high := df.high[t]?
  low := df.low[t]?
  close := df.close[t]?
  volume := df.volume[t]?
  log_return := (df.log_return.getD [])[t]?
  simple_return := (df.simple_return.getD [])[t]?
  rolling_mean := (df.rolling_mean.getD [])[t]?
  rolling_std := (df.rolling_std.getD [])[t]?
  rolling_zscore := (df.rolling_zscore.getD [])[t]?
  rolling_volatility := (df.rolling_volatility.getD [])[t]?
  price_range := (df.price_range.getD [])[t]?
  rolling_range := (df.rolling_range.getD [])[t]?
  volume_mean := (df.volume_mean.getD [])[t]?
  volume_zscore := (df.volume_zscore.getD [])[t]?
  trend_strength := (df.trend_strength.getD [])[t]?

/-- Cell of a column at an index, with the pandas missing sentinel as
default. -/
def colAt (c : List FVal) (t : ℕ) : FVal := c.getD t FVal.nan

section Pipeline

variable (L S : ℚ → ℚ)

/-- Embedding of `compute_returns` of src/pipeline/feature_pipeline.py:
assigns `log_return = np.log(close / close.shift(1))` and
`simple_return = close.pct_change()` on the frame passed in. -/
def compute_returns (df : DF) : DF :=
  { df with
    log_return := some (logCol L (divCol df.close (shiftCol df.close)))
    simple_return := some (pctChangeCol df.close) }

/-- Embedding of `compute_rolling_statistics` of
src/pipeline/feature_pipeline.py: assigns `rolling_mean`, `rolling_std`
and `rolling_zscore = (close - rolling_mean) / rolling_std`, reading the
two columns just assigned. -/
def compute_rolling_statistics (df : DF) (window : ℕ) : DF :=
  let m := rollingMean window df.close
  let s := rollingStd S window df.close
  { df with
    rolling_mean := some m
    rolling_std := some s
    rolling_zscore := some (divCol (subCol df.close m) s) }

/-- Embedding of `compute_volatility_features` of
src/pipeline/feature_pipeline.py: assigns
`rolling_volatility = log_return.rolling(window).std()`, reading the
`log_return` column of the frame. -/
def compute_volatility_features (df : DF) (window : ℕ) : DF :=
  { df with
    rolling_volatility := some (rollingStd S window (df.log_return.getD [])) }

/-- Embedding of `compute_price_action_features` of
src/pipeline/feature_pipeline.py: assigns `price_range = high - low` and
`rolling_range = price_range.rolling(window).mean()`. -/
def compute_price_action_features (df : DF) (window : ℕ) : DF :=
  let pr := subCol df.high df.low
  { df with
    price_range := some pr
    rolling_range := some (rollingMean window pr) }

/-- Embedding of `compute_volume_features` of
src/pipeline/feature_pipeline.py: assigns
`volume_mean = volume.rolling(window).mean()` and
`volume_zscore = (volume - volume_mean) / volume.rolling(window).std()`. -/
def compute_volume_features (df : DF) (window : ℕ) : DF :=
  let vm := rollingMean window df.volume
  { df with
    volume_mean := some vm
    volume_zscore :=
      some (divCol (subCol df.volume vm) (rollingStd S window df.volume)) }

/-- Embedding of `compute_trend_features` of
src/pipeline/feature_pipeline.py: assigns
`trend_strength = rolling_mean.diff()`, reading the `rolling_mean`
column of the frame. -/
def compute_trend_features (df : DF) : DF :=
  { df with trend_strength := some (diffCol (df.rolling_mean.getD [])) }

/-- Embedding of `build_feature_set` of src/pipeline/feature_pipeline.py:
the six stages chained in source order (returns, rolling statistics,
volatility, price action, volume, trend).  This is the `compute` operation
of the specification. -/
def build_feature_set (df : DF) (window : ℕ) : DF :=
  compute_trend_features
    (compute_volume_features S
      (compute_price_action_features
        (compute_volatility_features S
          (compute_rolling_statistics S (compute_returns L df) window)
          window)
        window)
      window)

end Pipeline

namespace DataPipeline

/-- Embedding of `generate_derived_features` of
src/pipeline/data_pipeline.py: the same eleven assignments as
`build_feature_set`, written as one function body; `rolling_volatility`
reads the `log_return` column assigned a few lines earlier and
`trend_strength` reads the `rolling_mean` column assigned earlier, exactly
as in the source. -/
def generate_derived_features (L S : ℚ → ℚ) (df : DF) (window : ℕ) : DF :=
  let lr := logCol L (divCol df.close (shiftCol df.close))
  let m := rollingMean window df.close
  let s := rollingStd S window df.close
  let pr := subCol df.high df.low
  let vm := rollingMean window df.volume
  { df with
    log_return := some lr
    simple_return := some (pctChangeCol df.close)
    rolling_mean := some m
    rolling_std := some s
    rolling_zscore := some (divCol (subCol df.close m) s)
    rolling_volatility := some (rollingStd S window lr)
    price_range := some pr
    rolling_range := some (rollingMean window pr)
    volume_mean := some vm
    volume_zscore := some (divCol (subCol df.volume vm) (rollingStd S window df.volume))
    trend_strength := some (diffCol m) }

end DataPipeline

namespace DataCollection

/-- Embedding of `generate_derived_features` of
src/model/data_collection.py, which repeats the assignments of
src/pipeline/data_pipeline.py verbatim. -/
def generate_derived_features (L S : ℚ → ℚ) (df : DF) (window : ℕ) : DF :=
  let lr := logCol L (divCol df.close (shiftCol df.close))
  let m := rollingMean window df.close
  let s := rollingStd S window df.close
  let pr := subCol df.high df.low
  let vm := rollingMean window df.volume
  { df with
    log_return := some lr
    simple_return := some (pctChangeCol df.close)
    rolling_mean := some m
    rolling_std := some s
    rolling_zscore := some (divCol (subCol df.close m) s)
    rolling_volatility := some (rollingStd S window lr)
    price_range := some pr
    rolling_range := some (rollingMean window pr)
    volume_mean := some vm
    volume_zscore := some (divCol (subCol df.volume vm) (rollingStd S window df.volume))
    trend_strength := some (diffCol m) }

end DataCollection

/-- Boolean mask marking the rows in which a column is non-NaN. -/
def notNanMask (xs : List FVal) : List Bool := xs.map (fun v => !(isNan v))

/-- Conjunction of two aligned boolean masks. -/
def andMask (xs ys : List Bool) : List Bool := List.zipWith (· && ·) xs ys

/-- Row filter by a boolean mask: keeps exactly the entries whose mask bit
is true, in order. -/
def maskFilter {α : Type} : List Bool → List α → List α
  | true :: bs, x :: xs => x :: maskFilter bs xs
  | false :: bs, _ :: xs => maskFilter bs xs
  | _, _ => []

/-- Keep-mask of the completeness filter of `run` in
src/pipeline/feature_pipeline.py: a row survives
`dropna(subset=["log_return", "rolling_mean", "rolling_std"])` exactly
when those three cells are all non-NaN. -/
def keepMask (df : DF) : List Bool :=
  andMask (notNanMask (df.log_return.getD []))
    (andMask (notNanMask (df.rolling_mean.getD []))
      (notNanMask (df.rolling_std.getD [])))

/-- Embedding of the completeness filter applied by `run` in
src/pipeline/feature_pipeline.py:
`dropna(subset=["log_return", "rolling_mean", "rolling_std"])` followed by
`reset_index(drop=True)` — every column of the frame is restricted to the
rows in which the three required fields are defined, in original order. -/
def completenessFilter (df : DF) : DF :=
  let k := keepMask df
  { datetime := maskFilter k df.datetime
    open_ := maskFilter k df.open_
    high := maskFilter k df.high
    low := maskFilter k df.low
    close := maskFilter k df.close
    volume := maskFilter k df.volume
    log_return := df.log_return.map (maskFilter k)
    simple_return := df.simple_return.map (maskFilter k)
    rolling_mean := df.rolling_mean.map (maskFilter k)
    rolling_std := df.rolling_std.map (maskFilter k)
    rolling_zscore := df.rolling_zscore.map (maskFilter k)
    rolling_volatility := df.rolling_volatility.map (maskFilter k)
    price_range := df.price_range.map (maskFilter k)
    rolling_range := df.rolling_range.map (maskFilter k)
    volume_mean := df.volume_mean.map (maskFilter k)
    volume_zscore := df.volume_zscore.map (maskFilter k)
    trend_strength := df.trend_strength.map (maskFilter k) }

/-- Completeness of one row: the three default required fields of the
completeness filter are all non-NaN at index `t`. -/
def rowComplete (df : DF) (t : ℕ) : Bool :=
  !(isNan (colAt (df.log_return.getD []) t)) &&
    (!(isNan (colAt (df.rolling_mean.getD []) t)) &&
      !(isNan (colAt (df.rolling_std.getD []) t)))

/-- Shorthand turning a list of rationals into a finite-valued column. -/
def fins (qs : List ℚ) : List FVal := qs.map FVal.fin

/-- Concrete five-bar frame with the closes of the end-to-end scenario of
the specification, `[100, 101, 99, 102, 98]`. -/
def exDF : DF where
  datetime := [0, 1, 2, 3, 4]
  open_ := fins [100, 100, 101, 99, 102]
  high := fins [102, 103, 101, 104, 99]
  low := fins [99, 100, 98, 101, 97]
  close := fins [100, 101, 99, 102, 98]
  volume := fins [10, 20, 30, 40, 50]

/-- Concrete three-bar frame with constant closes, for the zero-dispersion
scenario. -/
def flatDF : DF where
  datetime := [0, 1, 2]
  open_ := fins [5, 5, 5]
  high := fins [6, 6, 6]
  low := fins [4, 4, 4]
  close := fins [5, 5, 5]
  volume := fins [7, 8, 9]

/-! Computation lemmas about the cell arithmetic. -/

@[simp] theorem isNan_nan : isNan .nan = true := rfl

@[simp] theorem isNan_fin (q : ℚ) : isNan (.fin q) = false := rfl

@[simp] theorem isFin_fin (q : ℚ) : isFin (.fin q) = true := rfl

theorem isFin_iff {v : FVal} : isFin v = true ↔ ∃ q, v = .fin q := by
  cases v <;> simp [isFin]

theorem isNan_of_not_isFin {v : FVal} (h : isFin v = true → False) :
    v = .nan ∨ v = .pinf ∨ v = .ninf := by
  cases v <;> simp_all [isFin]

@[simp] theorem fadd_fin_fin (a b : ℚ) : fadd (.fin a) (.fin b) = .fin (a + b) := rfl

@[simp] theorem fsub_fin_fin (a b : ℚ) : fsub (.fin a) (.fin b) = .fin (a - b) := by
  simp [fsub, fneg, fadd, sub_eq_add_neg]

@[simp] theorem fmul_fin_fin (a b : ℚ) : fmul (.fin a) (.fin b) = .fin (a * b) := rfl

theorem fdiv_fin_fin {b : ℚ} (a : ℚ) (h : b ≠ 0) :
    fdiv (.fin a) (.fin b) = .fin (a / b) := by
  simp [fdiv, h]

@[simp] theorem fdiv_zero_zero : fdiv (.fin 0) (.fin 0) = .nan := by simp [fdiv]

@[simp] theorem fdiv_nan_right (v : FVal) : fdiv v .nan = .nan := by
  cases v <;> rfl

@[simp] theorem flog_nan (L : ℚ → ℚ) : flog L .nan = .nan := rfl

theorem flog_fin_pos (L : ℚ → ℚ) {q : ℚ} (h : 0 < q) :
    flog L (.fin q) = .fin (L q) := by
  simp [flog, h]

theorem fsqrt_fin_nonneg (S : ℚ → ℚ) {q : ℚ} (h : 0 ≤ q) :
    ∃ r, fsqrt S (.fin q) = .fin r := by
  rcases eq_or_lt_of_le h with h0 | h0
  · exact ⟨0, by simp [fsqrt, h0.symm]⟩
  · exact ⟨S q, by simp [fsqrt, h0, h0.ne.symm]⟩

/-! Lemmas about the finite-valued case of the rolling aggregations. -/

theorem exists_map_fin {l : List FVal} (h : ∀ v ∈ l, isFin v = true) :
    ∃ qs : List ℚ, l = qs.map FVal.fin := by
  induction l with
  | nil => exact ⟨[], rfl⟩
  | cons v l ih =>
      obtain ⟨q, hq⟩ := isFin_iff.mp (h v (by simp))
      obtain ⟨qs, hqs⟩ := ih fun x hx => h x (by simp [hx])
      exact ⟨q :: qs, by simp [hq, hqs]⟩

theorem foldl_nanSum_aux (qs : List ℚ) (a : ℚ) :
    List.foldl (fun a v => if isNan v then a else fadd a v) (.fin a)
      (qs.map .fin) = .fin (a + qs.sum) := by
  induction qs generalizing a with
  | nil => simp
  | cons q qs ih => simp [ih, add_assoc]

theorem nanSum_fins (qs : List ℚ) : nanSum (qs.map .fin) = .fin qs.sum := by
  simpa using foldl_nanSum_aux qs 0

theorem obsCount_fins (qs : List ℚ) : obsCount (qs.map .fin) = qs.length := by
  simp [obsCount, List.filter_map, Function.comp, isNan]

theorem foldl_sqsum_aux (m : ℚ) (qs : List ℚ) (a : ℚ) :
    List.foldl
      (fun a v => if isNan v then a
        else fadd a (fmul (fsub v (.fin m)) (fsub v (.fin m))))
      (.fin a) (qs.map .fin) =
    .fin (a + (qs.map (fun q => (q - m) * (q - m))).sum) := by
  induction qs generalizing a with
  | nil => simp
  | cons q qs ih => simp [ih, add_assoc]

/-! Lemmas about the trailing window. -/

theorem winAt_length {w t : ℕ} (xs : List FVal) (h1 : w ≤ t + 1)
    (h2 : t < xs.length) : (winAt w xs t).length = w := by
  simp only [winAt, List.length_drop, List.length_take]
  omega

theorem mem_winAt {x : FVal} {w t : ℕ} {xs : List FVal}
    (hx : x ∈ winAt w xs t) :
    ∃ j, t + 1 - w ≤ j ∧ j < t + 1 ∧ xs[j]? = some x := by
  obtain ⟨i, hi, hix⟩ := List.mem_iff_getElem.mp hx
  have hlen : i < (xs.take (t + 1)).length - (t + 1 - w) := by
    simpa only [winAt, List.length_drop] using hi
  have hB : t + 1 - w + i < t + 1 := by
    simp only [List.length_take] at hlen
    omega
  have hq : (winAt w xs t)[i]? = some x := by
    rw [List.getElem?_eq_getElem hi, hix]
  rw [winAt, List.getElem?_drop, List.getElem?_take, if_pos hB] at hq
  exact ⟨t + 1 - w + i, by omega, hB, hq⟩

theorem winAt_all_fin {w t : ℕ} {xs : List FVal}
    (h : ∀ j, t + 1 - w ≤ j → j < t + 1 → ∀ v, xs[j]? = some v → isFin v = true) :
    ∀ v ∈ winAt w xs t, isFin v = true := by
  intro v hv
  obtain ⟨j, hj1, hj2, hj3⟩ := mem_winAt hv
  exact h j hj1 hj2 v hj3

/-! Pointwise description of the rolling aggregation columns. -/

theorem colAt_range_map (F : ℕ → FVal) {n t : ℕ} (h : t < n) :
    colAt ((List.range n).map F) t = F t := by
  simp [colAt, List.getD_eq_getElem?_getD, List.getElem?_map,
    List.getElem?_range h]

theorem rollingMean_colAt {w t : ℕ} (xs : List FVal) (h : t < xs.length) :
    colAt (rollingMean w xs) t = meanAt w xs t :=
  colAt_range_map (meanAt w xs) h

theorem rollingStd_colAt (S : ℚ → ℚ) {w t : ℕ} (xs : List FVal)
    (h : t < xs.length) : colAt (rollingStd S w xs) t = stdAt S w xs t :=
  colAt_range_map (stdAt S w xs) h

theorem meanAt_nan_short {w t : ℕ} (xs : List FVal) (h : t + 1 < w) :
    meanAt w xs t = .nan := by
  simp [meanAt, h]

theorem stdAt_nan_short (S : ℚ → ℚ) {w t : ℕ} (xs : List FVal)
    (h : t + 1 < w) : stdAt S w xs t = .nan := by
  simp [stdAt, h]

theorem obsCount_lt_of_mem_nan {w t : ℕ} {xs : List FVal}
    (h1 : w ≤ t + 1) (h2 : t < xs.length)
    (hmem : ∃ v ∈ winAt w xs t, isNan v = true) :
    obsCount (winAt w xs t) < w := by
  have hlen : (winAt w xs t).length = w := winAt_length xs h1 h2
  have : obsCount (winAt w xs t) < (winAt w xs t).length := by
    apply List.length_filter_lt_length_iff_exists.mpr
    obtain ⟨v, hv, hnan⟩ := hmem
    exact ⟨v, hv, by simp [hnan]⟩
  omega

theorem meanAt_nan_mem {w t : ℕ} (xs : List FVal) (h2 : t < xs.length)
    (hmem : ∃ v ∈ winAt w xs t, isNan v = true) : meanAt w xs t = .nan := by
  by_cases h1 : t + 1 < w
  · exact meanAt_nan_short xs h1
  · have := obsCount_lt_of_mem_nan (by omega) h2 hmem
    simp [meanAt, h1, this]

theorem stdAt_nan_mem (S : ℚ → ℚ) {w t : ℕ} (xs : List FVal)
    (h2 : t < xs.length) (hmem : ∃ v ∈ winAt w xs t, isNan v = true) :
    stdAt S w xs t = .nan := by
  by_cases h1 : t + 1 < w
  · exact stdAt_nan_short S xs h1
  · have := obsCount_lt_of_mem_nan (by omega) h2 hmem
    simp [stdAt, h1, this]

theorem meanAt_eq {w t : ℕ} {xs : List FVal} (hw : 0 < w) (h1 : w ≤ t + 1)
    (h2 : t < xs.length) (qs : List ℚ) (hqs : winAt w xs t = qs.map .fin) :
    meanAt w xs t = .fin (qs.sum / w) := by
  have hlen : qs.length = w := by
    have := winAt_length xs h1 h2
    simpa [hqs] using this
  have hcnt : obsCount (List.map FVal.fin qs) = w := by
    rw [obsCount_fins, hlen]
  have hwq : ((w : ℚ)) ≠ 0 := Nat.cast_ne_zero.mpr (by omega)
  simp only [meanAt, hqs, hcnt, nanSum_fins]
  rw [if_neg (by omega), if_neg (by omega), fdiv_fin_fin _ hwq]

theorem stdAt_eq (S : ℚ → ℚ) {w t : ℕ} {xs : List FVal} (hw : 2 ≤ w)
    (h1 : w ≤ t + 1) (h2 : t < xs.length) (qs : List ℚ)
    (hqs : winAt w xs t = qs.map .fin) :
    stdAt S w xs t =
      fsqrt S (.fin
        ((qs.map (fun q => (q - qs.sum / w) * (q - qs.sum / w))).sum /
          ((w : ℚ) - 1))) := by
  have hlen : qs.length = w := by
    have := winAt_length xs h1 h2
    simpa [hqs] using this
  have hcnt : obsCount (List.map FVal.fin qs) = w := by
    rw [obsCount_fins, hlen]
  have hwq : ((w : ℚ)) ≠ 0 := Nat.cast_ne_zero.mpr (by omega)
  have hw1 : ((w : ℚ)) - 1 ≠ 0 := by
    have h2le : (2 : ℚ) ≤ (w : ℚ) := by exact_mod_cast hw
    intro hc
    linarith
  simp only [stdAt, hqs, hcnt, nanSum_fins]
  rw [if_neg (by omega), if_neg (by omega), if_neg (by omega),
    fdiv_fin_fin _ hwq, foldl_sqsum_aux, fdiv_fin_fin _ hw1, zero_add]

theorem stdAt_fin (S : ℚ → ℚ) {w t : ℕ} {xs : List FVal} (hw : 2 ≤ w)
    (h1 : w ≤ t + 1) (h2 : t < xs.length)
    (hfin : ∀ v ∈ winAt w xs t, isFin v = true) :
    ∃ r, stdAt S w xs t = .fin r := by
  obtain ⟨qs, hqs⟩ := exists_map_fin hfin
  rw [stdAt_eq S hw h1 h2 qs hqs]
  apply fsqrt_fin_nonneg
  apply div_nonneg
  · apply List.sum_nonneg
    intro x hx
    obtain ⟨q, _, hq⟩ := List.mem_map.mp hx
    rw [← hq]
    exact mul_self_nonneg _
  · have : (2 : ℚ) ≤ (w : ℚ) := by exact_mod_cast hw
    linarith

theorem meanAt_fin {w t : ℕ} {xs : List FVal} (hw : 0 < w) (h1 : w ≤ t + 1)
    (h2 : t < xs.length) (hfin : ∀ v ∈ winAt w xs t, isFin v = true) :
    ∃ r, meanAt w xs t = .fin r := by
  obtain ⟨qs, hqs⟩ := exists_map_fin hfin
  exact ⟨qs.sum / w, meanAt_eq hw h1 h2 qs hqs⟩

/-! Take-commutation: every column operation of the engine commutes with
truncating its input column, because each output cell only reads cells at
its own index or earlier.  These lemmas are the combinatorial core of the
causality claim. -/

theorem take_cons_take (x : FVal) (xs : List FVal) {m n : ℕ} (h : m ≤ n) :
    (x :: xs.take n).take m = (x :: xs).take m := by
  cases m with
  | zero => rfl
  | succ k =>
      simp only [List.take_succ_cons, List.take_take]
      rw [min_eq_left (by omega)]

theorem shiftCol_take (xs : List FVal) (n : ℕ) :
    shiftCol (xs.take n) = (shiftCol xs).take n := by
  simp only [shiftCol, List.length_take, List.take_take]
  exact take_cons_take _ _ (min_le_left n xs.length)

@[simp] theorem zipWith_take_take (f : FVal → FVal → FVal)
    (xs ys : List FVal) (n : ℕ) :
    List.zipWith f (xs.take n) (ys.take n) = (List.zipWith f xs ys).take n :=
  (List.take_zipWith).symm

theorem winAt_take {w t n : ℕ} (xs : List FVal) (h : t < n) :
    winAt w (xs.take n) t = winAt w xs t := by
  simp only [winAt, List.take_take]
  rw [min_eq_left (by omega)]

theorem rolling_take (F : List FVal → ℕ → FVal)
    (hF : ∀ xs n t, t < n → F (xs.take n) t = F xs t) (xs : List FVal)
    (n : ℕ) :
    (List.range (xs.take n).length).map (F (xs.take n)) =
      ((List.range xs.length).map (F xs)).take n := by
  rw [← List.map_take (F xs) (List.range xs.length) n, List.take_range]
  simp only [List.length_take]
  apply List.map_congr_left
  intro t ht
  have htn : t < n := by
    have := List.mem_range.mp ht
    omega
  exact hF xs n t htn

@[simp] theorem rollingMean_take (w : ℕ) (xs : List FVal) (n : ℕ) :
    rollingMean w (xs.take n) = (rollingMean w xs).take n := by
  unfold rollingMean
  apply rolling_take
  intro xs n t ht
  unfold meanAt
  rw [winAt_take xs ht]

@[simp] theorem rollingStd_take (S : ℚ → ℚ) (w : ℕ) (xs : List FVal) (n : ℕ) :
    rollingStd S w (xs.take n) = (rollingStd S w xs).take n := by
  unfold rollingStd
  apply rolling_take
  intro xs n t ht
  unfold stdAt
  rw [winAt_take xs ht]

theorem build_feature_set_truncDF (L S : ℚ → ℚ) (df : DF) (w n : ℕ) :
    build_feature_set L S (truncDF df n) w =
      truncDF (build_feature_set L S df w) n := by
  simp only [build_feature_set, compute_trend_features, compute_volume_features,
    compute_price_action_features, compute_volatility_features,
    compute_rolling_statistics, compute_returns, truncDF, Option.getD_some,
    Option.map_some']
  simp [DF.mk.injEq, divCol, subCol, logCol, pctChangeCol, diffCol,
    shiftCol_take, List.map_take]

/-! Length preservation of the column operations. -/

@[simp] theorem shiftCol_length (xs : List FVal) :
    (shiftCol xs).length = xs.length := by
  simp [shiftCol]

@[simp] theorem rollingMean_length (w : ℕ) (xs : List FVal) :
    (rollingMean w xs).length = xs.length := by
  simp [rollingMean]

@[simp] theorem rollingStd_length (S : ℚ → ℚ) (w : ℕ) (xs : List FVal) :
    (rollingStd S w xs).length = xs.length := by
  simp [rollingStd]

theorem getD_map_take (o : Option (List FVal)) (n : ℕ) :
    (o.map (List.take n)).getD [] = (o.getD []).take n := by
  cases o <;> simp

theorem rowAt_truncDF (df : DF) (t : ℕ) :
    rowAt (truncDF df (t + 1)) t = rowAt df t := by
  simp [rowAt, truncDF, getD_map_take, List.getElem?_take, Nat.lt_succ_self]

/-- C1: causality (no lookahead).  For every frame, window and index `t`,
the FeatureRow at index `t` computed by the engine from the BarSeries
truncated to the bars at indices at most `t` is identical to the FeatureRow
at index `t` computed from the full series, so every output field at `t`
is a function of bar data at indices at most `t` only. -/
theorem causality_no_lookahead (L S : ℚ → ℚ) (w : ℕ) (df : DF) (t : ℕ) :
    rowAt (build_feature_set L S (truncDF df (t + 1)) w) t =
      rowAt (build_feature_set L S df w) t := by
  rw [build_feature_set_truncDF]
  exact rowAt_truncDF _ t

/-- C9: idempotence.  The engine writes its feature columns onto the frame
it was given and returns that frame; calling it a second time on the frame
the first call returned recomputes every feature column from the unchanged
OHLCV base columns and yields exactly the same frame, field for field. -/
theorem compute_idempotent (L S : ℚ → ℚ) (df : DF) (w : ℕ) :
    build_feature_set L S (build_feature_set L S df w) w =
      build_feature_set L S df w := rfl

/-- C10: the duplicated engine implementations are equivalent.  For every
input frame and window, `generate_derived_features` of
src/pipeline/data_pipeline.py and `generate_derived_features` of
src/model/data_collection.py produce exactly the frame produced by
`build_feature_set` of src/pipeline/feature_pipeline.py, on every feature
column. -/
theorem duplicated_implementations_agree (L S : ℚ → ℚ) (df : DF) (w : ℕ) :
    DataPipeline.generate_derived_features L S df w =
        build_feature_set L S df w ∧
      DataCollection.generate_derived_features L S df w =
        build_feature_set L S df w :=
  ⟨rfl, rfl⟩

/-- C8 (amended): the engine mutates its input in place.  The frame object
the caller passed in is, after the call, exactly the returned frame: its
timestamp axis and five OHLCV base columns are unchanged, and the eleven
feature columns have been assigned onto it. -/
theorem compute_mutates_base_preserved (L S : ℚ → ℚ) (df : DF) (w : ℕ) :
    (build_feature_set L S df w).datetime = df.datetime ∧
    (build_feature_set L S df w).open_ = df.open_ ∧
    (build_feature_set L S df w).high = df.high ∧
    (build_feature_set L S df w).low = df.low ∧
    (build_feature_set L S df w).close = df.close ∧
    (build_feature_set L S df w).volume = df.volume ∧
    (build_feature_set L S df w).log_return.isSome = true ∧
    (build_feature_set L S df w).simple_return.isSome = true ∧
    (build_feature_set L S df w).rolling_mean.isSome = true ∧
    (build_feature_set L S df w).rolling_std.isSome = true ∧
    (build_feature_set L S df w).rolling_zscore.isSome = true ∧
    (build_feature_set L S df w).rolling_volatility.isSome = true ∧
    (build_feature_set L S df w).price_range.isSome = true ∧
    (build_feature_set L S df w).rolling_range.isSome = true ∧
    (build_feature_set L S df w).volume_mean.isSome = true ∧
    (build_feature_set L S df w).volume_zscore.isSome = true ∧
    (build_feature_set L S df w).trend_strength.isSome = true := by
  simp [build_feature_set, compute_trend_features, compute_volume_features,
    compute_price_action_features, compute_volatility_features,
    compute_rolling_statistics, compute_returns]

/-- C8 counterexample: the engine is not read-only on its input.  On the
concrete five-bar frame `exDF` the frame object after the call (the value
`build_feature_set` leaves in the caller variable) differs from the frame
before the call: feature columns were added to it. -/
theorem compute_mutates_counterexample :
    build_feature_set id id exDF 3 ≠ exDF := by
  intro h
  have h2 := congrArg DF.log_return h
  simp [build_feature_set, compute_trend_features, compute_volume_features,
    compute_price_action_features, compute_volatility_features,
    compute_rolling_statistics, compute_returns, exDF] at h2

/-! Projections of the engine output onto its feature columns. -/

theorem build_log_return (L S : ℚ → ℚ) (df : DF) (w : ℕ) :
    (build_feature_set L S df w).log_return =
      some (logCol L (divCol df.close (shiftCol df.close))) := by
  simp [build_feature_set, compute_trend_features, compute_volume_features,
    compute_price_action_features, compute_volatility_features,
    compute_rolling_statistics, compute_returns]

theorem build_rolling_mean (L S : ℚ → ℚ) (df : DF) (w : ℕ) :
    (build_feature_set L S df w).rolling_mean =
      some (rollingMean w df.close) := by
  simp [build_feature_set, compute_trend_features, compute_volume_features,
    compute_price_action_features, compute_volatility_features,
    compute_rolling_statistics, compute_returns]

theorem build_rolling_std (L S : ℚ → ℚ) (df : DF) (w : ℕ) :
    (build_feature_set L S df w).rolling_std =
      some (rollingStd S w df.close) := by
  simp [build_feature_set, compute_trend_features, compute_volume_features,
    compute_price_action_features, compute_volatility_features,
    compute_rolling_statistics, compute_returns]

theorem build_rolling_zscore (L S : ℚ → ℚ) (df : DF) (w : ℕ) :
    (build_feature_set L S df w).rolling_zscore =
      some (divCol (subCol df.close (rollingMean w df.close))
        (rollingStd S w df.close)) := by
  simp [build_feature_set, compute_trend_features, compute_volume_features,
    compute_price_action_features, compute_volatility_features,
    compute_rolling_statistics, compute_returns]

theorem build_rolling_volatility (L S : ℚ → ℚ) (df : DF) (w : ℕ) :
    (build_feature_set L S df w).rolling_volatility =
      some (rollingStd S w (logCol L (divCol df.close (shiftCol df.close)))) := by
  simp [build_feature_set, compute_trend_features, compute_volume_features,
    compute_price_action_features, compute_volatility_features,
    compute_rolling_statistics, compute_returns]

/-! Helper lemmas about window membership and constant windows. -/

theorem mem_of_mem_winAt {v : FVal} {w t : ℕ} {xs : List FVal}
    (h : v ∈ winAt w xs t) : v ∈ xs :=
  List.mem_of_mem_take (List.mem_of_mem_drop h)

theorem isFin_of_isPosFin {v : FVal} (h : isPosFin v = true) :
    isFin v = true := by
  cases v <;> simp_all [isPosFin, isFin]

theorem winAt_eq_replicate {w t : ℕ} {xs : List FVal} {c : ℚ} (h1 : w ≤ t + 1)
    (h2 : t < xs.length)
    (hconst : ∀ j, t + 1 - w ≤ j → j < t + 1 → xs[j]? = some (.fin c)) :
    winAt w xs t = List.replicate w (.fin c) := by
  have hlen : (winAt w xs t).length = w := winAt_length xs h1 h2
  have hall : ∀ v ∈ winAt w xs t, v = FVal.fin c := by
    intro v hv
    obtain ⟨j, hj1, hj2, hj3⟩ := mem_winAt hv
    have hc := hconst j hj1 hj2
    rw [hc] at hj3
    exact (Option.some.inj hj3).symm
  calc winAt w xs t
      = List.replicate (winAt w xs t).length (FVal.fin c) :=
        List.eq_replicate_of_mem hall
    _ = List.replicate w (FVal.fin c) := by rw [hlen]

theorem meanAt_const {w t : ℕ} {xs : List FVal} {c : ℚ} (hw : 0 < w)
    (h1 : w ≤ t + 1) (h2 : t < xs.length)
    (hconst : winAt w xs t = List.replicate w (.fin c)) :
    meanAt w xs t = .fin c := by
  have hqs : winAt w xs t = (List.replicate w c).map .fin := by
    rw [hconst, List.map_replicate]
  have hwq : ((w : ℚ)) ≠ 0 := Nat.cast_ne_zero.mpr (by omega)
  have hsum : (List.replicate w c).sum = (w : ℚ) * c := by
    simp [List.sum_replicate, nsmul_eq_mul]
  rw [meanAt_eq hw h1 h2 _ hqs, hsum, mul_div_cancel_left₀ _ hwq]

theorem stdAt_const (S : ℚ → ℚ) {w t : ℕ} {xs : List FVal} {c : ℚ}
    (hw : 2 ≤ w) (h1 : w ≤ t + 1) (h2 : t < xs.length)
    (hconst : winAt w xs t = List.replicate w (.fin c)) :
    stdAt S w xs t = .fin 0 := by
  have hqs : winAt w xs t = (List.replicate w c).map .fin := by
    rw [hconst, List.map_replicate]
  have hwq : ((w : ℚ)) ≠ 0 := Nat.cast_ne_zero.mpr (by omega)
  have hsum : (List.replicate w c).sum = (w : ℚ) * c := by
    simp [List.sum_replicate, nsmul_eq_mul]
  have hm : (List.replicate w c).sum / (w : ℚ) = c := by
    rw [hsum, mul_div_cancel_left₀ _ hwq]
  rw [stdAt_eq S hw h1 h2 _ hqs]
  simp only [List.map_replicate]
  rw [hm]
  simp [fsqrt, List.sum_replicate]

theorem stdAt_one_nan (S : ℚ → ℚ) (xs : List FVal) (t : ℕ) :
    stdAt S 1 xs t = .nan := by
  have hlen : (winAt 1 xs t).length ≤ 1 := by
    simp only [winAt, List.length_drop, List.length_take]
    omega
  have hcnt : obsCount (winAt 1 xs t) ≤ 1 :=
    le_trans (List.length_filter_le _ _) hlen
  simp only [stdAt]
  by_cases h : obsCount (winAt 1 xs t) < 1 <;> simp [h, hcnt]

theorem colAt_zipWith (f : FVal → FVal → FVal) {xs ys : List FVal} {t : ℕ}
    (hx : t < xs.length) (hy : t < ys.length) :
    colAt (List.zipWith f xs ys) t = f (colAt xs t) (colAt ys t) := by
  simp [colAt, List.getD_eq_getElem?_getD, List.getElem?_zipWith',
    List.getElem?_eq_getElem hx, List.getElem?_eq_getElem hy]

theorem getElem_posFin {close : List FVal}
    (hpos : ∀ v ∈ close, isPosFin v = true) {j : ℕ} (hj : j < close.length) :
    ∃ a, close[j]? = some (.fin a) ∧ 0 < a := by
  obtain ⟨v, hv⟩ : ∃ v, close[j]? = some v := ⟨_, List.getElem?_eq_getElem hj⟩
  have hp := hpos v (List.getElem?_mem hv)
  cases v with
  | nan => simp [isPosFin] at hp
  | pinf => simp [isPosFin] at hp
  | ninf => simp [isPosFin] at hp
  | fin a => exact ⟨a, hv, of_decide_eq_true hp⟩

/-- C2: warm-up boundary for the rolling statistics.  For every frame of
finite positive closes and window at least 2, `rolling_mean` and
`rolling_std` are undefined (NaN) at every index below `window - 1` and
carry a finite value at every index from `window - 1` on. -/
theorem rolling_warmup_boundary (L S : ℚ → ℚ) (w : ℕ) (df : DF) (t : ℕ)
    (hw : 2 ≤ w) (hpos : df.close.all isPosFin = true) (ht : t < df.n) :
    (w - 1 ≤ t →
      (∃ q, colAt ((build_feature_set L S df w).rolling_mean.getD []) t =
          .fin q) ∧
        ∃ q, colAt ((build_feature_set L S df w).rolling_std.getD []) t =
          .fin q) ∧
      (t < w - 1 →
        colAt ((build_feature_set L S df w).rolling_mean.getD []) t = .nan ∧
          colAt ((build_feature_set L S df w).rolling_std.getD []) t = .nan) := by
  have htl : t < df.close.length := ht
  have hfin : ∀ v ∈ winAt w df.close t, isFin v = true := fun v hv =>
    isFin_of_isPosFin (List.all_eq_true.mp hpos v (mem_of_mem_winAt hv))
  rw [build_rolling_mean, build_rolling_std]
  simp only [Option.getD_some]
  rw [rollingMean_colAt df.close htl, rollingStd_colAt S df.close htl]
  constructor
  · intro hwt
    exact ⟨meanAt_fin (by omega) (by omega) htl hfin,
      stdAt_fin S hw (by omega) htl hfin⟩
  · intro hwt
    exact ⟨meanAt_nan_short df.close (by omega),
      stdAt_nan_short S df.close (by omega)⟩

/-- C4: zero-dispersion safety.  If the `window` closes ending at index `t`
are all the same finite value, the rolling standard deviation at `t` is
exactly zero and the rolling z-score at `t` is NaN — undefined, not an
infinity, and no error is raised (the engine is a total function). -/
theorem zero_dispersion_safety (L S : ℚ → ℚ) (w : ℕ) (df : DF) (t : ℕ)
    (c : ℚ) (hw : 2 ≤ w) (ht : t < df.n) (hwt : w - 1 ≤ t)
    (hconst : ∀ j, j < t + 1 → t + 1 - w ≤ j → df.close[j]? = some (.fin c)) :
    colAt ((build_feature_set L S df w).rolling_std.getD []) t = .fin 0 ∧
      colAt ((build_feature_set L S df w).rolling_zscore.getD []) t = .nan := by
  have htl : t < df.close.length := ht
  have h1 : w ≤ t + 1 := by omega
  have hrep := winAt_eq_replicate h1 htl (fun j hj1 hj2 => hconst j hj2 hj1)
  have hstd : colAt (rollingStd S w df.close) t = .fin 0 := by
    rw [rollingStd_colAt S df.close htl]
    exact stdAt_const S hw h1 htl hrep
  have hmean : colAt (rollingMean w df.close) t = .fin c := by
    rw [rollingMean_colAt df.close htl]
    exact meanAt_const (by omega) h1 htl hrep
  have hclose : colAt df.close t = .fin c := by
    have hc := hconst t (by omega) (by omega)
    simp [colAt, List.getD_eq_getElem?_getD, hc]
  refine ⟨?_, ?_⟩
  · rw [build_rolling_std]
    simpa using hstd
  · rw [build_rolling_zscore]
    simp only [Option.getD_some, divCol, subCol]
    have hxlen : t < (List.zipWith fsub df.close (rollingMean w df.close)).length := by
      simp only [List.length_zipWith, rollingMean_length, min_self]
      exact htl
    have hylen : t < (rollingStd S w df.close).length := by
      simpa using htl
    rw [colAt_zipWith fdiv hxlen hylen,
      colAt_zipWith fsub htl (by simpa using htl), hclose, hmean, hstd]
    simp [sub_self]

/-- C5 counterexample: the engine performs no window validation.  With
`window = 1` on the concrete frame `exDF`, `build_feature_set` runs to
completion and produces feature output — the rolling-mean column is
assigned, and its cell at index 0 holds the defined value 100 — refuting
the claim that the call fails with `ConfigError(INVALID_WINDOW)` before
any computation starts and produces no feature output.  No `ConfigError`
(and no window check) exists anywhere in the source. -/
theorem no_window_validation_counterexample :
    (build_feature_set id id exDF 1).rolling_mean ≠ none ∧
      colAt ((build_feature_set id id exDF 1).rolling_mean.getD []) 0 =
        .fin 100 := by
  constructor
  · rw [build_rolling_mean]
    simp
  · rw [build_rolling_mean]
    simp only [Option.getD_some]
    rw [rollingMean_colAt _ (show 0 < exDF.close.length by decide)]
    norm_num [meanAt, winAt, obsCount, nanSum, exDF, fins, isNan, fadd, fdiv]

/-- C5 (amended): `build_feature_set` accepts `window = 1` and computation
proceeds — over finite closes the rolling mean is defined at every index —
while the rolling sample standard deviation (which needs at least two
observations) is NaN at every index.  No failure occurs and feature output
is produced. -/
theorem window_one_no_validation (L S : ℚ → ℚ) (df : DF) (t : ℕ)
    (hfin : df.close.all isFin = true) (ht : t < df.n) :
    (∃ q, colAt ((build_feature_set L S df 1).rolling_mean.getD []) t =
        .fin q) ∧
      colAt ((build_feature_set L S df 1).rolling_std.getD []) t = .nan := by
  have htl : t < df.close.length := ht
  constructor
  · rw [build_rolling_mean]
    simp only [Option.getD_some]
    rw [rollingMean_colAt _ htl]
    exact meanAt_fin (by omega) (by omega) htl
      (fun v hv => List.all_eq_true.mp hfin v (mem_of_mem_winAt hv))
  · rw [build_rolling_std]
    simp only [Option.getD_some]
    rw [rollingStd_colAt S _ htl]
    exact stdAt_one_nan S df.close t

/-! Lemmas about the log-return column
`np.log(close / close.shift(1))`. -/

@[simp] theorem logReturn_length (L : ℚ → ℚ) (close : List FVal) :
    (logCol L (divCol close (shiftCol close))).length = close.length := by
  simp [logCol, divCol]

theorem logReturn_zero_nan (L : ℚ → ℚ) {close : List FVal}
    (h : 0 < close.length) :
    (logCol L (divCol close (shiftCol close)))[0]? = some .nan := by
  cases close with
  | nil => simp at h
  | cons a l => simp [logCol, divCol, shiftCol]

theorem shiftCol_getElem_succ {xs : List FVal} {k : ℕ} (h : k + 1 < xs.length) :
    (shiftCol xs)[k + 1]? = xs[k]? := by
  simp [shiftCol, List.getElem?_take, h]

theorem logReturn_pos_fin (L : ℚ → ℚ) {close : List FVal}
    (hpos : ∀ v ∈ close, isPosFin v = true) {t : ℕ} (h1 : 1 ≤ t)
    (h2 : t < close.length) :
    ∃ q, (logCol L (divCol close (shiftCol close)))[t]? = some (.fin q) := by
  obtain ⟨k, rfl⟩ : ∃ k, t = k + 1 := ⟨t - 1, by omega⟩
  obtain ⟨a, ha1, ha2⟩ := getElem_posFin hpos h2
  obtain ⟨b, hb1, hb2⟩ := getElem_posFin hpos (show k < close.length by omega)
  refine ⟨L (a / b), ?_⟩
  rw [logCol, List.getElem?_map, divCol, List.getElem?_zipWith', ha1,
    shiftCol_getElem_succ h2, hb1]
  simp [fdiv_fin_fin a (ne_of_gt hb2), flog_fin_pos L (div_pos ha2 hb2)]

/-- C3: volatility warm-up.  The `rolling_volatility` column is exactly the
trailing-`window` rolling sample standard deviation of the `log_return`
column, and because `log_return` has a one-bar warm-up it is undefined
(NaN) at every index below `window` and carries a finite value at every
index from `window` on, for every frame of finite positive closes and
window at least 2. -/
theorem volatility_warmup (L S : ℚ → ℚ) (w : ℕ) (df : DF) (t : ℕ)
    (hw : 2 ≤ w) (hpos : df.close.all isPosFin = true) (ht : t < df.n) :
    ((build_feature_set L S df w).rolling_volatility =
        some (rollingStd S w ((build_feature_set L S df w).log_return.getD []))) ∧
      (w ≤ t → ∃ q,
        colAt ((build_feature_set L S df w).rolling_volatility.getD []) t =
          .fin q) ∧
      (t < w →
        colAt ((build_feature_set L S df w).rolling_volatility.getD []) t =
          .nan) := by
  have hposm : ∀ v ∈ df.close, isPosFin v = true := List.all_eq_true.mp hpos
  have htl : t < (logCol L (divCol df.close (shiftCol df.close))).length := by
    rw [logReturn_length]
    exact ht
  refine ⟨?_, ?_, ?_⟩
  · rw [build_rolling_volatility, build_log_return]
    simp
  · intro hwt
    rw [build_rolling_volatility]
    simp only [Option.getD_some]
    rw [rollingStd_colAt S _ htl]
    apply stdAt_fin S hw (by omega) htl
    intro v hv
    obtain ⟨j, hj1, hj2, hj3⟩ := mem_winAt hv
    have hj4 : j < df.close.length := by
      have := ht
      unfold DF.n at this
      omega
    obtain ⟨q, hq⟩ := logReturn_pos_fin L hposm (show 1 ≤ j by omega) hj4
    rw [hq] at hj3
    rw [← Option.some.inj hj3]
    simp
  · intro hwt
    rw [build_rolling_volatility]
    simp only [Option.getD_some]
    rw [rollingStd_colAt S _ htl]
    by_cases hsh : t + 1 < w
    · exact stdAt_nan_short S _ hsh
    · apply stdAt_nan_mem S _ htl
      refine ⟨.nan, ?_, rfl⟩
      have h0 : (winAt w (logCol L (divCol df.close (shiftCol df.close)))
          t)[0]? = some FVal.nan := by
        unfold winAt
        rw [show t + 1 - w = 0 from by omega, List.drop_zero,
          List.getElem?_take]
        simp [logReturn_zero_nan L (show 0 < df.close.length by
          have := ht; unfold DF.n at this; omega)]
      exact List.getElem?_mem h0

/-- C7: length and order preservation inside the engine.  Given a
well-formed base table, the frame returned by the engine keeps the
timestamp axis unchanged, every one of the eleven feature columns has
exactly one cell per input bar, and the row at index `t` is keyed by the
timestamp of input bar `t`; no row is dropped, added or reordered. -/
theorem engine_preserves_length_and_timestamps (L S : ℚ → ℚ) (df : DF)
    (w : ℕ) (h : BaseWf df) :
    (build_feature_set L S df w).datetime = df.datetime ∧
    ((build_feature_set L S df w).log_return.getD []).length = df.n ∧
    ((build_feature_set L S df w).simple_return.getD []).length = df.n ∧
    ((build_feature_set L S df w).rolling_mean.getD []).length = df.n ∧
    ((build_feature_set L S df w).rolling_std.getD []).length = df.n ∧
    ((build_feature_set L S df w).rolling_zscore.getD []).length = df.n ∧
    ((build_feature_set L S df w).rolling_volatility.getD []).length = df.n ∧
    ((build_feature_set L S df w).price_range.getD []).length = df.n ∧
    ((build_feature_set L S df w).rolling_range.getD []).length = df.n ∧
    ((build_feature_set L S df w).volume_mean.getD []).length = df.n ∧
    ((build_feature_set L S df w).volume_zscore.getD []).length = df.n ∧
    ((build_feature_set L S df w).trend_strength.getD []).length = df.n ∧
    ∀ t, (rowAt (build_feature_set L S df w) t).datetime = df.datetime[t]? := by
  obtain ⟨hd, ho, hh, hl, hv⟩ := h
  refine ⟨rfl, ?_, ?_, ?_, ?_, ?_, ?_, ?_, ?_, ?_, ?_, ?_, fun t => rfl⟩ <;>
    simp [build_feature_set, compute_trend_features, compute_volume_features,
      compute_price_action_features, compute_volatility_features,
      compute_rolling_statistics, compute_returns, logCol, divCol, subCol,
      pctChangeCol, diffCol, List.length_zipWith, hh, hl, hv, DF.n]

/-! Lemmas about the completeness filter. -/

theorem maskFilter_sublist {α : Type} (bs : List Bool) (xs : List α) :
    (maskFilter bs xs).Sublist xs := by
  induction bs generalizing xs with
  | nil => cases xs <;> simp [maskFilter]
  | cons b bs ih =>
      cases xs with
      | nil => simp [maskFilter]
      | cons x xs =>
          cases b with
          | true =>
              simpa [maskFilter] using (ih xs).cons₂ x
          | false =>
              simpa [maskFilter] using (ih xs).cons x

theorem maskFilter_eq_filter {α : Type} (d : α) (bs : List Bool)
    (xs : List α) (h : bs.length = xs.length) :
    maskFilter bs xs =
      ((List.range xs.length).filter (fun t => bs.getD t false)).map
        (fun t => xs.getD t d) := by
  induction bs generalizing xs with
  | nil =>
      cases xs with
      | nil => simp [maskFilter]
      | cons x xs => simp at h
  | cons b bs ih =>
      cases xs with
      | nil => simp at h
      | cons x xs =>
          have h' : bs.length = xs.length := by simpa using h
          have hp : ((fun t => (b :: bs).getD t false) ∘ Nat.succ) =
              fun t => bs.getD t false := by
            funext t
            simp
          have hg : ((fun t => (x :: xs).getD t d) ∘ Nat.succ) =
              fun t => xs.getD t d := by
            funext t
            simp
          cases b with
          | true =>
              show x :: maskFilter bs xs = _
              rw [ih xs h', List.length_cons, List.range_succ_eq_map,
                List.filter_cons]
              simp [List.filter_map, List.map_map, Function.comp_def]
          | false =>
              show maskFilter bs xs = _
              rw [ih xs h', List.length_cons, List.range_succ_eq_map,
                List.filter_cons]
              simp [List.filter_map, List.map_map, Function.comp_def]

theorem keepMask_length (df : DF) :
    (keepMask df).length =
      min (df.log_return.getD []).length
        (min (df.rolling_mean.getD []).length
          (df.rolling_std.getD []).length) := by
  simp [keepMask, andMask, notNanMask, List.length_zipWith]

theorem keepMask_getD (df : DF) (t : ℕ)
    (h1 : t < (df.log_return.getD []).length)
    (h2 : t < (df.rolling_mean.getD []).length)
    (h3 : t < (df.rolling_std.getD []).length) :
    (keepMask df).getD t false = rowComplete df t := by
  simp [keepMask, andMask, notNanMask, rowComplete, colAt,
    List.getD_eq_getElem?_getD, List.getElem?_zipWith', List.getElem?_map,
    List.getElem?_eq_getElem h1, List.getElem?_eq_getElem h2,
    List.getElem?_eq_getElem h3]

/-- C6: completeness-filter semantics.  The filter stage of `run` keeps
exactly the rows in which every field of the default required set
(`log_return`, `rolling_mean`, `rolling_std`) is defined, in the original
ascending-timestamp order (the retained timestamp axis is the in-order
selection of the complete row indices and a sublist of the input axis);
in particular, on the closes `[100, 101, 99, 102, 98]` with window 3 only
the rows at indices 0 and 1 are dropped. -/
theorem completeness_filter_semantics (df : DF)
    (h1 : (df.log_return.getD []).length = df.datetime.length)
    (h2 : (df.rolling_mean.getD []).length = df.datetime.length)
    (h3 : (df.rolling_std.getD []).length = df.datetime.length) :
    ((completenessFilter df).datetime =
        ((List.range df.datetime.length).filter (rowComplete df)).map
          (fun t => df.datetime.getD t 0)) ∧
      (completenessFilter df).datetime.Sublist df.datetime ∧
      (completenessFilter (build_feature_set id id exDF 3)).datetime =
        [2, 3, 4] := by
  refine ⟨?_, ?_, ?_⟩
  · show maskFilter (keepMask df) df.datetime = _
    rw [maskFilter_eq_filter 0 _ _
      (by rw [keepMask_length, h1, h2, h3]; simp)]
    congr 1
    apply List.filter_congr
    intro t ht
    have htn : t < df.datetime.length := List.mem_range.mp ht
    exact keepMask_getD df t (by omega) (by omega) (by omega)
  · exact maskFilter_sublist _ _
  · norm_num [completenessFilter, keepMask, andMask, notNanMask, maskFilter,
      build_feature_set, compute_trend_features, compute_volume_features,
      compute_price_action_features, compute_volatility_features,
      compute_rolling_statistics, compute_returns, exDF, fins, logCol,
      divCol, subCol, shiftCol, pctChangeCol, diffCol, rollingMean,
      rollingStd, meanAt, stdAt, winAt, obsCount, nanSum, isNan, fadd, fsub,
      fneg, fmul, fdiv, flog, fsqrt, List.range_succ]

/-! Witnesses: each hypothesis-bearing claim theorem instantiated at a
concrete frame, with the hypotheses discharged there. -/

/-- Witness for the warm-up boundary theorem: frame `exDF`, window 3,
index 2 (the first defined index). -/
theorem rolling_warmup_boundary_witness :
    (2 ≤ 3 ∧ exDF.close.all isPosFin = true ∧ 2 < exDF.n) ∧
      ((3 - 1 ≤ 2 →
        (∃ q, colAt ((build_feature_set id id exDF 3).rolling_mean.getD [])
            2 = .fin q) ∧
          ∃ q, colAt ((build_feature_set id id exDF 3).rolling_std.getD [])
            2 = .fin q) ∧
        (2 < 3 - 1 →
          colAt ((build_feature_set id id exDF 3).rolling_mean.getD []) 2 =
              .nan ∧
            colAt ((build_feature_set id id exDF 3).rolling_std.getD []) 2 =
              .nan)) :=
  ⟨⟨by decide, by decide, by decide⟩,
    rolling_warmup_boundary id id 3 exDF 2 (by decide) (by decide)
      (by decide)⟩

/-- Witness for the volatility warm-up theorem: frame `exDF`, window 3,
index 3 (the first defined index of `rolling_volatility`). -/
theorem volatility_warmup_witness :
    (2 ≤ 3 ∧ exDF.close.all isPosFin = true ∧ 3 < exDF.n) ∧
      (((build_feature_set id id exDF 3).rolling_volatility =
          some (rollingStd id 3
            ((build_feature_set id id exDF 3).log_return.getD []))) ∧
        (3 ≤ 3 → ∃ q,
          colAt ((build_feature_set id id exDF 3).rolling_volatility.getD [])
            3 = .fin q) ∧
        (3 < 3 →
          colAt ((build_feature_set id id exDF 3).rolling_volatility.getD [])
            3 = .nan)) :=
  ⟨⟨by decide, by decide, by decide⟩,
    volatility_warmup id id 3 exDF 3 (by decide) (by decide) (by decide)⟩

/-- Witness for the zero-dispersion theorem: frame `flatDF` (constant
closes 5), window 3, index 2. -/
theorem zero_dispersion_safety_witness :
    (2 ≤ 3 ∧ 2 < flatDF.n ∧ 3 - 1 ≤ 2 ∧
      (∀ j, j < 2 + 1 → 2 + 1 - 3 ≤ j → flatDF.close[j]? = some (.fin 5))) ∧
      (colAt ((build_feature_set id id flatDF 3).rolling_std.getD []) 2 =
          .fin 0 ∧
        colAt ((build_feature_set id id flatDF 3).rolling_zscore.getD []) 2 =
          .nan) :=
  ⟨⟨by decide, by decide, by decide, by decide⟩,
    zero_dispersion_safety id id 3 flatDF 2 5 (by decide) (by decide)
      (by decide) (by decide)⟩

/-- Witness for the amended window-1 theorem: frame `exDF`, index 0. -/
theorem window_one_no_validation_witness :
    (exDF.close.all isFin = true ∧ 0 < exDF.n) ∧
      ((∃ q, colAt ((build_feature_set id id exDF 1).rolling_mean.getD [])
          0 = .fin q) ∧
        colAt ((build_feature_set id id exDF 1).rolling_std.getD []) 0 =
          .nan) :=
  ⟨⟨by decide, by decide⟩,
    window_one_no_validation id id exDF 0 (by decide) (by decide)⟩

/-- Witness for the completeness-filter theorem: the frame produced by the
engine on `exDF` with window 3. -/
theorem completeness_filter_semantics_witness :
    (((build_feature_set id id exDF 3).log_return.getD []).length =
        (build_feature_set id id exDF 3).datetime.length ∧
      ((build_feature_set id id exDF 3).rolling_mean.getD []).length =
        (build_feature_set id id exDF 3).datetime.length ∧
      ((build_feature_set id id exDF 3).rolling_std.getD []).length =
        (build_feature_set id id exDF 3).datetime.length) ∧
      (((completenessFilter (build_feature_set id id exDF 3)).datetime =
          ((List.range (build_feature_set id id exDF 3).datetime.length).filter
            (rowComplete (build_feature_set id id exDF 3))).map
              (fun t => (build_feature_set id id exDF 3).datetime.getD t 0)) ∧
        (completenessFilter (build_feature_set id id exDF 3)).datetime.Sublist
          (build_feature_set id id exDF 3).datetime ∧
        (completenessFilter (build_feature_set id id exDF 3)).datetime =
          [2, 3, 4]) :=
  ⟨⟨by decide, by decide, by decide⟩,
    completeness_filter_semantics (build_feature_set id id exDF 3)
      (by decide) (by decide) (by decide)⟩

/-- Witness for the length-and-timestamp preservation theorem: frame
`exDF`, window 3. -/
theorem engine_preserves_length_witness :
    BaseWf exDF ∧
      ((build_feature_set id id exDF 3).datetime = exDF.datetime ∧
      ((build_feature_set id id exDF 3).log_return.getD []).length = exDF.n ∧
      ((build_feature_set id id exDF 3).simple_return.getD []).length = exDF.n ∧
      ((build_feature_set id id exDF 3).rolling_mean.getD []).length = exDF.n ∧
      ((build_feature_set id id exDF 3).rolling_std.getD []).length = exDF.n ∧
      ((build_feature_set id id exDF 3).rolling_zscore.getD []).length = exDF.n ∧
      ((build_feature_set id id exDF 3).rolling_volatility.getD []).length = exDF.n ∧
      ((build_feature_set id id exDF 3).price_range.getD []).length = exDF.n ∧
      ((build_feature_set id id exDF 3).rolling_range.getD []).length = exDF.n ∧
      ((build_feature_set id id exDF 3).volume_mean.getD []).length = exDF.n ∧
      ((build_feature_set id id exDF 3).volume_zscore.getD []).length = exDF.n ∧
      ((build_feature_set id id exDF 3).trend_strength.getD []).length = exDF.n ∧
      ∀ t, (rowAt (build_feature_set id id exDF 3) t).datetime =
        exDF.datetime[t]?) :=
  ⟨by decide, engine_preserves_length_and_timestamps id id exDF 3 (by decide)⟩

end TradingBot
